import Mathlib

/-!
Verification development for the code-insight core (Java structural
extraction, index manager, query engine).

The Rust sources are embedded shallowly:

* `src/types.rs` data model becomes plain Lean structures;
* the tree-sitter grammar tree (an external black box per the design
  notes) is modelled as `TSNode`: a node has a kind string, its source
  text, and an ordered child list in which each child optionally carries
  a grammar field name (`child_by_field_name` looks those up);
* the tantivy full-text index (external library) is modelled as the list
  of committed documents; its documented behaviour used by the repo is
  embedded: the default text analyzer splits on non-alphanumeric
  characters and lowercases tokens, a parsed query over several default
  fields matches a document when some query token occurs among the
  tokens of one of those fields, `FuzzyTermQuery(term, 2, true)` matches
  documents whose field contains a term within Damerau-Levenshtein
  (optimal string alignment) distance 2 of the raw query term, and
  `TopDocs::with_limit(n)` truncates to `n` documents;
* `f32` scores are modelled by `F32`: either NaN (on which
  `partial_cmp` is `none`) or a rational payload;
* async functions are pure state-passing functions (writer-lock
  acquisition and commits have no observable effect beyond the document
  list); `HashMap` is an association list with replace-on-insert.
-/

namespace CodeInsight

/-! ## String helpers (List-Char based so everything kernel-evaluates) -/

/-- Rust `str::split_whitespace` (empty tokens dropped): splitter. -/
def splitWsAux : List Char → List Char → List String
  | [], cur => if cur.isEmpty then [] else [String.mk cur.reverse]
  | c :: cs, cur =>
    if c.isWhitespace then
      if cur.isEmpty then splitWsAux cs [] else String.mk cur.reverse :: splitWsAux cs []
    else splitWsAux cs (c :: cur)

/-- Rust `str::split_whitespace().collect::<Vec<_>>()`. -/
def splitWhitespaceNE (s : String) : List String := splitWsAux s.toList []

/-- Rust `Vec::<String>::join(" ")`. -/
def joinSpace : List String → String
  | [] => ""
  | [s] => s
  | s :: rest => s ++ " " ++ joinSpace rest

/-- Rust `str::trim` (drop leading and trailing whitespace). -/
def trimChars (l : List Char) : List Char :=
  ((l.dropWhile Char.isWhitespace).reverse.dropWhile Char.isWhitespace).reverse

/-- Rust `str::trim` on `String`. -/
def trimStr (s : String) : String := String.mk (trimChars s.toList)

/-- One fuel-indexed step of Rust `str::trim_start_matches(pat)`:
repeatedly strips `pat` as long as it is a prefix.  The fuel (the length
of the subject) bounds the number of strips, so the recursion is
structural and reduces in the kernel. -/
def stripPrefixAllFuel (pat : List Char) : Nat → List Char → List Char
  | 0, l => l
  | fuel + 1, l =>
    if pat ≠ [] ∧ pat.isPrefixOf l then stripPrefixAllFuel pat fuel (l.drop pat.length) else l

/-- Rust `str::trim_start_matches(pat)`. -/
def trimStartMatchesStr (s pat : String) : String :=
  String.mk (stripPrefixAllFuel pat.toList s.toList.length s.toList)

/-- Rust `str::starts_with(pat)`. -/
def startsWithStr (s pat : String) : Bool := pat.toList.isPrefixOf s.toList

/-- Rust `str::contains(pat)`: substring containment. -/
def containsSubstr (s pat : String) : Bool :=
  (List.range (s.toList.length + 1)).any (fun i => pat.toList.isPrefixOf (s.toList.drop i))

/-- Lowercase every character (model of tantivy's `LowerCaser`). -/
def lowerStr (s : String) : String := String.mk (s.toList.map Char.toLower)

/-- Tokenizer of tantivy's default text analyzer: split on
non-alphanumeric characters, lowercase, drop empty tokens.  The
accumulator holds the current token reversed. -/
def tokenizeAux : List Char → List Char → List (List Char)
  | [], cur => if cur.isEmpty then [] else [cur.reverse]
  | c :: cs, cur =>
    if c.isAlphanum then tokenizeAux cs (c.toLower :: cur)
    else if cur.isEmpty then tokenizeAux cs [] else cur.reverse :: tokenizeAux cs []

/-- Tokens of a field value or query string under the default analyzer. -/
def tokenize (s : String) : List String := (tokenizeAux s.toList []).map String.mk

/-- Byte-lexicographic comparison of char lists (Rust `Ord` on `String`). -/
def cmpChars : List Char → List Char → Ordering
  | [], [] => .eq
  | [], _ :: _ => .lt
  | _ :: _, [] => .gt
  | a :: as, b :: bs =>
    if a.val < b.val then .lt else if b.val < a.val then .gt else cmpChars as bs

/-- Rust `String::cmp`. -/
def cmpString (a b : String) : Ordering := cmpChars a.toList b.toList

/-! ## Damerau-Levenshtein (optimal string alignment) distance

Model of tantivy's Levenshtein automaton with `transposition = true`,
as used by `FuzzyTermQuery::new(term, 2, true)`.  Fuel-indexed so the
definition is structural; the initial fuel `|xs| + |ys|` dominates every
recursive chain, so the fuel never runs out on the intended calls. -/

def osaFuel : Nat → List Char → List Char → Nat
  | 0, xs, ys => xs.length + ys.length
  | fuel + 1, xs, ys =>
    match xs, ys with
    | [], _ => ys.length
    | _ :: _, [] => xs.length
    | x :: xs', y :: ys' =>
      let cost : Nat := if x = y then 0 else 1
      let d := min (osaFuel fuel xs' ys + 1)
               (min (osaFuel fuel xs ys' + 1) (osaFuel fuel xs' ys' + cost))
      match xs', ys' with
      | x2 :: xs'', y2 :: ys'' =>
        if x = y2 ∧ y = x2 then min d (osaFuel fuel xs'' ys'' + 1) else d
      | _, _ => d

/-- Edit distance between a raw query term and an indexed term. -/
def osaStr (a b : String) : Nat :=
  osaFuel (a.toList.length + b.toList.length) a.toList b.toList

/-! ## Data model (`src/types.rs`) -/

/-- `types.rs` `DeclarationKind`. -/
inductive DeclarationKind where
  | Class
  | Interface
  | Enum
  | Record
  | AnnotationKind
deriving DecidableEq, Repr

/-- Rust `format!("{:?}", kind)` for `DeclarationKind` (derive `Debug`). -/
def debugDeclKind : DeclarationKind → String
  | .Class => "Class"
  | .Interface => "Interface"
  | .Enum => "Enum"
  | .Record => "Record"
  | .AnnotationKind => "Annotation"

/-- `types.rs` `Annotation` (renamed `Annot` here). -/
structure Annot where
  name : String
  values : List (String × String)
deriving DecidableEq, Repr

/-- `types.rs` `SourceRange`. -/
structure SourceRange where
  start_line : Nat
  start_column : Nat
  end_line : Nat
  end_column : Nat
deriving DecidableEq, Repr

/-- `types.rs` `Field`. -/
structure Field where
  name : String
  type_name : String
  modifiers : List String
  annotations : List Annot
deriving DecidableEq, Repr

/-- `types.rs` `Parameter`. -/
structure Parameter where
  name : String
  type_name : String
  annotations : List Annot
deriving DecidableEq, Repr

/-- `types.rs` `Method`. -/
structure Method where
  name : String
  return_type : String
  parameters : List Parameter
  modifiers : List String
  annotations : List Annot
  range : SourceRange
  body_range : Option SourceRange
deriving DecidableEq, Repr

/-- `types.rs` `Declaration`.  The Rust field `extends` is a reserved
word in Lean, so it is spelt `extendsClause` here. -/
structure Declaration where
  name : String
  kind : DeclarationKind
  modifiers : List String
  annotations : List Annot
  signature : String
  extendsClause : Option String
  implements : List String
  fields : List Field
  methods : List Method
  range : SourceRange
  documentation : Option String
deriving DecidableEq, Repr

/-- `JavaFile` as constructed by `JavaParser::parse_file` (path, module,
package, imports, declarations, md5 content hash).  `PathBuf` is
modelled as a string. -/
structure JavaFile where
  path : String
  module : Option String
  package : String
  imports : List String
  declarations : List Declaration
  source_hash : String
deriving DecidableEq, Repr

/-- `types.rs` `SearchKind`. -/
inductive SearchKind where
  | Exact
  | Fuzzy
  | Regex
deriving DecidableEq, Repr

/-- Rust `format!("{:?}", kind)` for `SearchKind` (derive `Debug`). -/
def debugSearchKind : SearchKind → String
  | .Exact => "Exact"
  | .Fuzzy => "Fuzzy"
  | .Regex => "Regex"

/-- `types.rs` `SearchFilter`. -/
inductive SearchFilter where
  | Kind (kind : DeclarationKind)
  | AnnotationFilter (name : String)
  | Package (name : String)
  | Module (name : String)
deriving DecidableEq, Repr

/-- `types.rs` `SearchQuery`. -/
structure SearchQuery where
  query : String
  kind : SearchKind
  filters : List SearchFilter
  limit : Option Nat
deriving DecidableEq, Repr

/-- Model of Rust `f32`: NaN, or an exact rational payload.  Only the
distinctions the code exercises matter: the index layer only ever
constructs the literal `1.0`, and `partial_cmp` is `none` exactly when a
NaN is involved. -/
inductive F32 where
  | nan
  | val (q : ℚ)
deriving DecidableEq, Repr

/-- Rust `f32::partial_cmp`. -/
def F32.partialCmp : F32 → F32 → Option Ordering
  | .val a, .val b => some (compare a b)
  | _, _ => none

/-- `types.rs` `SearchResult`. -/
structure SearchResult where
  declaration : Declaration
  file_path : String
  score : F32
  preview : String
deriving DecidableEq, Repr

/-! ## Grammar tree model

The tree-sitter grammar tree provider is a black box (design §2); a node
is modelled by its kind string, its source text slice (`get_node_text` /
`node_text` read the byte span from the source, so the text is carried
directly), and its ordered children, each optionally tagged with the
grammar field name that `child_by_field_name` looks up. -/

inductive TSNode where
  | mk (kind : String) (text : String) (children : List (Option String × TSNode))

def TSNode.kind : TSNode → String
  | .mk k _ _ => k

def TSNode.text : TSNode → String
  | .mk _ t _ => t

def TSNode.children : TSNode → List (Option String × TSNode)
  | .mk _ _ c => c

/-- The node's children in order, field tags dropped (tree-sitter
`node.children(&mut cursor)`). -/
def TSNode.childNodes (n : TSNode) : List TSNode := n.children.map (·.2)

/-- tree-sitter `node.child_by_field_name(f)`. -/
def childByFieldName (n : TSNode) (f : String) : Option TSNode :=
  (n.children.find? (fun c => c.1 == some f)).map (·.2)

/-! ## `src/parser/java.rs`: `JavaNodeKind` and `JavaParser` -/

/-- `java.rs` `JavaNodeKind`. -/
inductive JavaNodeKind where
  | ModuleDeclaration
  | PackageDeclaration
  | ImportDeclaration
  | ClassDeclaration
  | InterfaceDeclaration
  | EnumDeclaration
  | RecordDeclaration
  | AnnotationTypeDeclaration
  | FieldDeclaration
  | MethodDeclaration
  | ConstructorDeclaration
  | Modifier
  | AnnotationNode
  | Identifier
  | ScopedIdentifier
  | Asterisk
  | TypeIdentifier
  | IntegralType
  | FloatingPointType
  | BooleanType
  | VoidType
  | GenericType
  | ArrayType
  | FormalParameters
  | FormalParameter
  | VariableDeclarator
  | Superclass
  | SuperInterfaces
  | StringLiteral
  | NumberLiteral
  | True
  | False
  | Comment
  | ElementValuePair
  | Public
  | Private
  | Protected
  | Static
  | Final
  | Abstract
  | Synchronized
  | Volatile
  | Transient
  | Native
  | Strictfp
  | Unknown
deriving DecidableEq, Repr

/-- `JavaNodeKind::from_str`. -/
def JavaNodeKind.fromStr (kind : String) : JavaNodeKind :=
  match kind with
  | "module_declaration" => .ModuleDeclaration
  | "package_declaration" => .PackageDeclaration
  | "import_declaration" => .ImportDeclaration
  | "class_declaration" => .ClassDeclaration
  | "interface_declaration" => .InterfaceDeclaration
  | "enum_declaration" => .EnumDeclaration
  | "record_declaration" => .RecordDeclaration
  | "annotation_type_declaration" => .AnnotationTypeDeclaration
  | "field_declaration" => .FieldDeclaration
  | "method_declaration" => .MethodDeclaration
  | "constructor_declaration" => .ConstructorDeclaration
  | "annotation" => .AnnotationNode
  | "modifier" => .Modifier
  | "identifier" => .Identifier
  | "scoped_identifier" => .ScopedIdentifier
  | "asterisk" => .Asterisk
  | "superclass" => .Superclass
  | "super_interfaces" => .SuperInterfaces
  | "type_identifier" => .TypeIdentifier
  | "integral_type" => .IntegralType
  | "floating_point_type" => .FloatingPointType
  | "boolean_type" => .BooleanType
  | "void_type" => .VoidType
  | "generic_type" => .GenericType
  | "array_type" => .ArrayType
  | "formal_parameters" => .FormalParameters
  | "formal_parameter" => .FormalParameter
  | "variable_declarator" => .VariableDeclarator
  | "comment" => .Comment
  | "string_literal" => .StringLiteral
  | "number_literal" => .NumberLiteral
  | "true" => .True
  | "false" => .False
  | "public" => .Public
  | "private" => .Private
  | "protected" => .Protected
  | "static" => .Static
  | "final" => .Final
  | "abstract" => .Abstract
  | "synchronized" => .Synchronized
  | "volatile" => .Volatile
  | "transient" => .Transient
  | "native" => .Native
  | "strictfp" => .Strictfp
  | "element_value_pair" => .ElementValuePair
  | _ => .Unknown

/-- `JavaNodeKind::is_declaration`. -/
def JavaNodeKind.is_declaration : JavaNodeKind → Bool
  | .ClassDeclaration | .InterfaceDeclaration | .EnumDeclaration
  | .RecordDeclaration | .AnnotationTypeDeclaration => true
  | _ => false

/-- `JavaNodeKind::to_declaration_kind`. -/
def JavaNodeKind.to_declaration_kind : JavaNodeKind → Option DeclarationKind
  | .ClassDeclaration => some .Class
  | .InterfaceDeclaration => some .Interface
  | .EnumDeclaration => some .Enum
  | .RecordDeclaration => some .Record
  | .AnnotationTypeDeclaration => some .AnnotationKind
  | _ => none

namespace JavaParser

/-- `JavaParser::get_declaration_name`: the first `identifier` child, or
the sentinel `"Anonymous"`. -/
def get_declaration_name (node : TSNode) : String :=
  match node.childNodes.find? (fun c => JavaNodeKind.fromStr c.kind == .Identifier) with
  | some c => c.text
  | none => "Anonymous"

/-- The modifier keywords `JavaParser::get_modifiers` scans for. -/
def javaModifiers : List String :=
  ["public", "private", "protected", "static", "final", "abstract",
   "synchronized", "volatile", "transient", "native", "strictfp"]

/-- Loop body of `JavaParser::get_modifiers`: push unseen modifier
tokens in order, stop after a kind keyword. -/
def get_modifiers_loop : List String → List String → List String
  | [], acc => acc
  | t :: ts, acc =>
    let acc2 := if javaModifiers.contains t ∧ ¬ acc.contains t then acc ++ [t] else acc
    if t = "class" ∨ t = "interface" ∨ t = "enum" ∨ t = "record" ∨ t = "@interface" then acc2
    else get_modifiers_loop ts acc2

/-- `JavaParser::get_modifiers`: token-scan the declaration's own text
up to the first kind keyword. -/
def get_modifiers (node : TSNode) : List String :=
  get_modifiers_loop (splitWhitespaceNE node.text) []

/-- The kind keyword pushed by `JavaParser::get_signature`. -/
def kindKeyword : DeclarationKind → String
  | .Class => "class"
  | .Interface => "interface"
  | .Enum => "enum"
  | .Record => "record"
  | .AnnotationKind => "@interface"

/-- `JavaParser::get_signature` (the `java_file` argument is only read
for its package, passed here directly). -/
def get_signature (node : TSNode) (package : String) : String :=
  match (JavaNodeKind.fromStr node.kind).to_declaration_kind with
  | none => node.text
  | some kind =>
    let name := get_declaration_name node
    let modifiers := get_modifiers node
    let parts := (if modifiers ≠ [] then modifiers else []) ++ [kindKeyword kind]
    let fqn := if package = "" then name else package ++ "." ++ name
    joinSpace (parts ++ [fqn])

/-- Loop body of `JavaParser::get_inheritance_info` over the
declaration's children. -/
def inheritance_step (acc : Option String × List String) (child : TSNode) :
    Option String × List String :=
  match JavaNodeKind.fromStr child.kind with
  | .Superclass =>
    match childByFieldName child "type" with
    | some typeNode => (some typeNode.text, acc.2)
    | none => acc
  | .SuperInterfaces =>
    (acc.1,
     acc.2 ++ (child.childNodes.filter
       (fun i => JavaNodeKind.fromStr i.kind == .TypeIdentifier)).map TSNode.text)
  | _ => acc

def inheritance_loop : List TSNode → Option String × List String → Option String × List String
  | [], acc => acc
  | c :: cs, acc => inheritance_loop cs (inheritance_step acc c)

/-- `JavaParser::get_inheritance_info`: `(extends, implements)`. -/
def get_inheritance_info (node : TSNode) : Option String × List String :=
  inheritance_loop node.childNodes (none, [])

/-- Loop of `JavaParser::get_documentation`: scan the node's children
for a comment whose text starts with the doc marker. -/
def get_documentation_loop : List TSNode → Option String
  | [] => none
  | c :: cs =>
    if JavaNodeKind.fromStr c.kind == .Comment then
      if startsWithStr c.text "/**" then some c.text else get_documentation_loop cs
    else get_documentation_loop cs

/-- `JavaParser::get_documentation`. -/
def get_documentation (node : TSNode) : Option String :=
  get_documentation_loop node.childNodes

end JavaParser

namespace JavaStructureParser

/-- `JavaStructureParser::build_fqn`. -/
def build_fqn (package : Option String) (class_name : String) : String :=
  match package with
  | some pkg => pkg ++ "." ++ class_name
  | none => class_name

/-- `JavaStructureParser::extract_extends`. -/
def extract_extends (node : TSNode) : Option String :=
  match childByFieldName node "superclass" with
  | some extendsNode =>
    let text := trimStr (trimStartMatchesStr (trimStr extendsNode.text) "extends")
    if text ≠ "" then some text else none
  | none => none

/-- `JavaStructureParser::extract_implements`. -/
def extract_implements (node : TSNode) : List String :=
  match childByFieldName node "interfaces" with
  | some implementsNode =>
    (implementsNode.childNodes.map (fun c => trimStr c.text)).filter
      (fun t => ¬ t = "" ∧ ¬ t = "implements")
  | none => []

/-- Loop of `JavaStructureParser::extract_documentation`: walk the
preceding siblings (nearest first) and return the first comment whose
text starts with the doc marker.  Note the walk does not stop at a
non-comment sibling: `current` is advanced past every sibling. -/
def doc_sibling_scan : List TSNode → Option String
  | [] => none
  | p :: ps =>
    if (p.kind = "line_comment" ∨ p.kind = "block_comment") ∧ startsWithStr p.text "/**" then
      some p.text
    else doc_sibling_scan ps

/-- `JavaStructureParser::extract_documentation` for the node at index
`i` of its parent's child list `siblings`: `prev_sibling` chains produce
exactly the preceding siblings, nearest first. -/
def extract_documentation (siblings : List TSNode) (i : Nat) : Option String :=
  doc_sibling_scan ((siblings.take i).reverse)

end JavaStructureParser

/-! ## `src/indexer/mod.rs`: `IndexManager`

The tantivy index is modelled as the list of committed documents in
commit order.  A `Doc` carries exactly the fields of the fixed schema;
the `fields`/`methods` schema fields are stored-only JSON blobs whose
serde serialization round-trips, so they are carried as the lists
themselves.  Option-valued entries model fields that
`create_document` adds only conditionally. -/

structure Doc where
  name : String
  package : String
  file_path : String
  signature : String
  documentation : Option String
  kind : String
  modifiers : String
  annotations : String
  extendsField : Option String
  implementsField : String
  fieldsBlob : List Field
  methodsBlob : List Method
  start_line : Nat
  end_line : Nat
  start_column : Nat
  end_column : Nat
  source_hash : String
deriving DecidableEq, Repr

namespace IndexManager

/-- `IndexManager::create_document`. -/
def create_document (declaration : Declaration) (java_file : JavaFile) : Doc where
  name := declaration.name
  package := java_file.package
  file_path := java_file.path
  signature := declaration.signature
  documentation := declaration.documentation
  kind := debugDeclKind declaration.kind
  modifiers := joinSpace declaration.modifiers
  annotations := joinSpace (declaration.annotations.map Annot.name)
  extendsField := declaration.extendsClause
  implementsField := joinSpace declaration.implements
  fieldsBlob := declaration.fields
  methodsBlob := declaration.methods
  start_line := declaration.range.start_line
  end_line := declaration.range.end_line
  start_column := declaration.range.start_column
  end_column := declaration.range.end_column
  source_hash := java_file.source_hash

/-- `IndexManager::index_java_file`: add one document per declaration
to the write batch and commit (additions become visible). -/
def index_java_file (index : List Doc) (java_file : JavaFile) : List Doc :=
  index ++ java_file.declarations.map (create_document · java_file)

/-- `IndexManager::delete_by_hash`: remove every document carrying the
content hash. -/
def delete_by_hash (index : List Doc) (source_hash : String) : List Doc :=
  index.filter (fun d => ¬ d.source_hash = source_hash)

/-- Matching semantics of the query object built by
`IndexManager::build_query`, applied to one document:

* `Exact`: `QueryParser` over the default fields name, signature and
  documentation; a (token) query matches when some query token occurs
  among a default field's tokens (tantivy combines terms disjunctively
  by default);
* `Fuzzy`: `FuzzyTermQuery::new(Term::from_field_text(name, query), 2,
  true)`: the raw (untokenized) query string must be within
  edit distance 2 (transpositions allowed) of some indexed token of the
  name field;
* `Regex`: `QueryParser` over the name field only (the underlying
  text-query parser, not a regex engine). -/
def build_query_matches (search : SearchQuery) (d : Doc) : Bool :=
  match search.kind with
  | .Exact =>
    (tokenize search.query).any (fun t =>
      (tokenize d.name).contains t ∨ (tokenize d.signature).contains t ∨
      ((d.documentation.map tokenize).getD []).contains t)
  | .Fuzzy =>
    (tokenize d.name).any (fun term => osaStr search.query term ≤ 2)
  | .Regex =>
    (tokenize search.query).any (fun t => (tokenize d.name).contains t)

/-- The `DeclarationKind` parse in
`IndexManager::create_declaration_from_doc` (unknown strings fall back
to `Class`). -/
def parseDeclKind (s : String) : DeclarationKind :=
  match s with
  | "Class" => .Class
  | "Interface" => .Interface
  | "Enum" => .Enum
  | "Record" => .Record
  | "Annotation" => .AnnotationKind
  | _ => .Class

/-- `IndexManager::create_declaration_from_doc`: rebuild a
`Declaration` from stored fields.  `get_text` yields `""` for an absent
stored field, and the `Some(..).filter(|s| !s.is_empty())` pattern turns
`""` back into `None`. -/
def create_declaration_from_doc (d : Doc) : Declaration where
  name := d.name
  kind := parseDeclKind d.kind
  modifiers := splitWhitespaceNE d.modifiers
  annotations := []
  signature := d.signature
  extendsClause := if d.extendsField.getD "" = "" then none else some (d.extendsField.getD "")
  implements := splitWhitespaceNE d.implementsField
  fields := d.fieldsBlob
  methods := d.methodsBlob
  range :=
    { start_line := d.start_line
      start_column := d.start_column
      end_line := d.end_line
      end_column := d.end_column }
  documentation := if d.documentation.getD "" = "" then none else some (d.documentation.getD "")

/-- `IndexManager::document_to_result`. -/
def document_to_result (d : Doc) : SearchResult where
  declaration := create_declaration_from_doc d
  file_path := d.file_path
  score := F32.val 1
  preview := d.name ++ ": " ++ d.signature

/-- `IndexManager::search`: collect the matching documents, truncate to
the limit (default 100), and rebuild a result from each stored
document. -/
def search (index : List Doc) (query : SearchQuery) : List SearchResult :=
  ((index.filter (build_query_matches query)).take (query.limit.getD 100)).map
    document_to_result

/-- `IndexManager::stats().0`: the total number of committed documents. -/
def num_docs (index : List Doc) : Nat := index.length

end IndexManager

/-! ## `src/query/mod.rs`: `QueryEngine` -/

/-- The process-local result cache: `HashMap<String, Vec<SearchResult>>`
as an association list with replace-on-insert. -/
abbrev Cache := List (String × List SearchResult)

def cacheLookup : Cache → String → Option (List SearchResult)
  | [], _ => none
  | p :: ps, key => if p.1 = key then some p.2 else cacheLookup ps key

def cacheContainsKey : Cache → String → Bool
  | [], _ => false
  | p :: ps, key => p.1 = key || cacheContainsKey ps key

def cacheInsert (cache : Cache) (key : String) (v : List SearchResult) : Cache :=
  if cacheContainsKey cache key then
    cache.map (fun p => if p.1 = key then (key, v) else p)
  else cache ++ [(key, v)]

namespace QueryEngine

/-- The cache key `format!("{:?}:{}", query.kind, query.query)`. -/
def cache_key (query : SearchQuery) : String :=
  debugSearchKind query.kind ++ ":" ++ query.query

/-- One filter of `QueryEngine::apply_filters` as a predicate on a
result. -/
def filter_pred (f : SearchFilter) (r : SearchResult) : Bool :=
  match f with
  | .Kind kind => r.declaration.kind == kind
  | .AnnotationFilter annotation =>
    r.declaration.annotations.any (fun a => containsSubstr a.name annotation)
  | .Package package => containsSubstr r.file_path package
  | .Module module => containsSubstr r.file_path module

/-- `QueryEngine::apply_filters`: apply each filter in the order
supplied. -/
def apply_filters (results : List SearchResult) (filters : List SearchFilter) :
    List SearchResult :=
  match filters with
  | [] => results
  | f :: fs => apply_filters (results.filter (filter_pred f)) fs

/-- Insertion step of a stable sort by a fallible comparator; `none`
models a comparator panic (`Option::unwrap` on `None`). -/
def insertOpt (cmp : SearchResult → SearchResult → Option Ordering) (a : SearchResult) :
    List SearchResult → Option (List SearchResult)
  | [] => some [a]
  | b :: bs =>
    match cmp a b with
    | none => none
    | some .gt => (insertOpt cmp a bs).map (b :: ·)
    | some _ => some (a :: b :: bs)

/-- Sort by a fallible comparator, propagating a comparator panic. -/
def sortByOpt (cmp : SearchResult → SearchResult → Option Ordering) :
    List SearchResult → Option (List SearchResult)
  | [] => some []
  | a :: as => (sortByOpt cmp as).bind (insertOpt cmp a)

/-- `QueryEngine::sort_results`.  The `Fuzzy` arm is Rust
`results.sort_by(|a, b| b.score.partial_cmp(&a.score).unwrap())`, whose
potential panic is the `none` outcome; the `Exact`/`Regex` comparators
are total. -/
def sort_results (results : List SearchResult) (kind : SearchKind) :
    Option (List SearchResult) :=
  match kind with
  | .Fuzzy => sortByOpt (fun a b => F32.partialCmp b.score a.score) results
  | .Exact => sortByOpt (fun a b => some (cmpString a.declaration.name b.declaration.name)) results
  | .Regex => sortByOpt (fun a b => some (cmpString a.file_path b.file_path)) results

/-- `QueryEngine::search`: on a cache hit return the cached clone
(cache unchanged); on a miss delegate to the index manager, apply the
filters, sort, and cache the result under the `(kind, query)` key.
`none` models a panic inside the fuzzy sort. -/
def search (index : List Doc) (cache : Cache) (query : SearchQuery) :
    Option (List SearchResult × Cache) :=
  let key := cache_key query
  match cacheLookup cache key with
  | some cached => some (cached, cache)
  | none =>
    match sort_results (apply_filters (IndexManager.search index query) query.filters)
        query.kind with
    | none => none
    | some results => some (results, cacheInsert cache key results)

/-- `QueryEngine::search_by_kind`. -/
def search_by_kind (index : List Doc) (cache : Cache) (kind : DeclarationKind)
    (limit : Option Nat) : Option (List SearchResult × Cache) :=
  search index cache
    { query := debugDeclKind kind
      kind := .Exact
      filters := [.Kind kind]
      limit := limit }

/-- `query/mod.rs` `QueryStatistics`. -/
structure QueryStatistics where
  total_declarations : Nat
  class_count : Nat
  interface_count : Nat
  enum_count : Nat
  record_count : Nat
  annotation_count : Nat
deriving DecidableEq, Repr

/-- `QueryEngine::get_statistics`: total document count from the index
manager plus one `search_by_kind` call per kind with `limit = None`,
threading the result cache through the five calls. -/
def get_statistics (index : List Doc) (cache : Cache) :
    Option (QueryStatistics × Cache) := do
  let total_docs := IndexManager.num_docs index
  let (rClass, c1) ← search_by_kind index cache .Class none
  let (rInterface, c2) ← search_by_kind index c1 .Interface none
  let (rEnum, c3) ← search_by_kind index c2 .Enum none
  let (rRecord, c4) ← search_by_kind index c3 .Record none
  let (rAnno, c5) ← search_by_kind index c4 .AnnotationKind none
  pure
    ({ total_declarations := total_docs
       class_count := rClass.length
       interface_count := rInterface.length
       enum_count := rEnum.length
       record_count := rRecord.length
       annotation_count := rAnno.length }, c5)

end QueryEngine

/-- The number of index documents stored with a given kind (the
reference count the spec's statistics sentence speaks about). -/
def countKind (index : List Doc) (k : DeclarationKind) : Nat :=
  (index.filter (fun d => IndexManager.parseDeclKind d.kind == k)).length

/-! ## Helper lemmas -/

theorem tokenizeAux_all_alphanum (l cur : List Char)
    (h : ∀ c ∈ l, c.isAlphanum = true) :
    tokenizeAux l cur =
      if (cur.reverse ++ l.map Char.toLower).isEmpty then []
      else [cur.reverse ++ l.map Char.toLower] := by
  induction l generalizing cur with
  | nil =>
    simp only [tokenizeAux, List.map_nil, List.append_nil]
    cases cur with
    | nil => simp
    | cons c cs => simp [List.isEmpty_iff]
  | cons c cs ih =>
    have hc : c.isAlphanum = true := h c (List.mem_cons_self c cs)
    have hcs : ∀ x ∈ cs, x.isAlphanum = true := fun x hx => h x (List.mem_cons_of_mem c hx)
    simp only [tokenizeAux, hc, if_true]
    rw [ih (c.toLower :: cur) hcs]
    simp [List.isEmpty_iff, List.append_assoc]

theorem tokenize_all_alphanum (s : String) (hne : s.toList ≠ [])
    (h : ∀ c ∈ s.toList, c.isAlphanum = true) :
    tokenize s = [lowerStr s] := by
  unfold tokenize lowerStr
  rw [tokenizeAux_all_alphanum s.toList [] h]
  have hd : s.data ≠ [] := hne
  simp [List.isEmpty_iff, hd]

theorem toList_ne_nil_of_ne_empty (s : String) (h : s ≠ "") : s.toList ≠ [] := by
  intro hl
  apply h
  cases s with
  | mk data => simpa [String.toList] using congrArg String.mk hl

namespace IndexManager

theorem mem_search (index : List Doc) (q : SearchQuery) (d : Doc)
    (hd : d ∈ index) (hm : build_query_matches q d = true)
    (hlim : index.length ≤ q.limit.getD 100) :
    document_to_result d ∈ search index q := by
  unfold search
  apply List.mem_map_of_mem
  have hmem : d ∈ index.filter (build_query_matches q) := List.mem_filter.mpr ⟨hd, hm⟩
  have hlen : (index.filter (build_query_matches q)).length ≤ q.limit.getD 100 :=
    le_trans (List.length_filter_le _ _) hlim
  rwa [List.take_of_length_le hlen]

theorem mem_search_score (index : List Doc) (q : SearchQuery) (r : SearchResult)
    (hr : r ∈ search index q) : r.score = F32.val 1 := by
  unfold search at hr
  obtain ⟨d, _, rfl⟩ := List.mem_map.mp hr
  rfl

theorem mem_search_annotations (index : List Doc) (q : SearchQuery) (r : SearchResult)
    (hr : r ∈ search index q) : r.declaration.annotations = [] := by
  unfold search at hr
  obtain ⟨d, _, rfl⟩ := List.mem_map.mp hr
  rfl

end IndexManager

namespace QueryEngine

theorem apply_filters_nil_results (filters : List SearchFilter) :
    apply_filters [] filters = [] := by
  induction filters with
  | nil => rfl
  | cons f fs ih => simpa [apply_filters] using ih

theorem mem_of_mem_apply_filters (results : List SearchResult)
    (filters : List SearchFilter) (r : SearchResult)
    (h : r ∈ apply_filters results filters) : r ∈ results := by
  induction filters generalizing results with
  | nil => exact h
  | cons f fs ih =>
    have := ih (results.filter (filter_pred f)) h
    exact (List.mem_filter.mp this).1

theorem apply_filters_annotation_empty (results : List SearchResult)
    (filters : List SearchFilter) (a : String)
    (hres : ∀ r ∈ results, r.declaration.annotations = [])
    (hf : SearchFilter.AnnotationFilter a ∈ filters) :
    apply_filters results filters = [] := by
  induction filters generalizing results with
  | nil => exact absurd hf (List.not_mem_nil _)
  | cons f fs ih =>
    rw [apply_filters]
    cases f with
    | AnnotationFilter b =>
      have hempty : results.filter (filter_pred (SearchFilter.AnnotationFilter b)) = [] := by
        rw [List.filter_eq_nil_iff]
        intro r hr
        simp [filter_pred, hres r hr]
      rw [hempty, apply_filters_nil_results]
    | Kind k =>
      apply ih
      · intro r hr
        exact hres r (List.mem_filter.mp hr).1
      · rcases List.mem_cons.mp hf with h | h
        · exact absurd h (by simp)
        · exact h
    | Package p =>
      apply ih
      · intro r hr
        exact hres r (List.mem_filter.mp hr).1
      · rcases List.mem_cons.mp hf with h | h
        · exact absurd h (by simp)
        · exact h
    | Module m =>
      apply ih
      · intro r hr
        exact hres r (List.mem_filter.mp hr).1
      · rcases List.mem_cons.mp hf with h | h
        · exact absurd h (by simp)
        · exact h

theorem insertOpt_isSome (cmp : SearchResult → SearchResult → Option Ordering)
    (a : SearchResult) (l : List SearchResult)
    (h : ∀ b ∈ l, (cmp a b).isSome = true) :
    (insertOpt cmp a l).isSome = true := by
  induction l with
  | nil => rfl
  | cons b bs ih =>
    have hb := h b (List.mem_cons_self b bs)
    rw [insertOpt]
    obtain ⟨o, ho⟩ := Option.isSome_iff_exists.mp hb
    rw [ho]
    cases o with
    | gt =>
      have := ih (fun x hx => h x (List.mem_cons_of_mem b hx))
      obtain ⟨l', hl'⟩ := Option.isSome_iff_exists.mp this
      simp [hl']
    | lt => rfl
    | eq => rfl

theorem insertOpt_mem (cmp : SearchResult → SearchResult → Option Ordering)
    (a : SearchResult) (l l' : List SearchResult)
    (h : insertOpt cmp a l = some l') : ∀ x ∈ l', x = a ∨ x ∈ l := by
  induction l generalizing l' with
  | nil =>
    rw [insertOpt] at h
    intro x hx
    simp only [Option.some_inj] at h
    subst h
    simp at hx
    simp [hx]
  | cons b bs ih =>
    rw [insertOpt] at h
    intro x hx
    cases hcmp : cmp a b with
    | none => rw [hcmp] at h; exact absurd h (by simp)
    | some o =>
      rw [hcmp] at h
      cases o with
      | gt =>
        cases hrec : insertOpt cmp a bs with
        | none => rw [hrec] at h; exact absurd h (by simp)
        | some m =>
          rw [hrec] at h
          have h2 : b :: m = l' := by simpa using h
          subst h2
          rcases List.mem_cons.mp hx with rfl | hx'
          · right; exact List.mem_cons_self _ _
          · rcases ih m hrec x hx' with h1 | h1
            · left; exact h1
            · right; exact List.mem_cons_of_mem _ h1
      | lt =>
        simp only [Option.some_inj] at h
        subst h
        rcases List.mem_cons.mp hx with rfl | hx'
        · left; rfl
        · right; exact hx'
      | eq =>
        simp only [Option.some_inj] at h
        subst h
        rcases List.mem_cons.mp hx with rfl | hx'
        · left; rfl
        · right; exact hx'

theorem insertOpt_length (cmp : SearchResult → SearchResult → Option Ordering)
    (a : SearchResult) (l l' : List SearchResult)
    (h : insertOpt cmp a l = some l') : l'.length = l.length + 1 := by
  induction l generalizing l' with
  | nil =>
    rw [insertOpt] at h
    simp only [Option.some_inj] at h
    subst h
    rfl
  | cons b bs ih =>
    rw [insertOpt] at h
    cases hcmp : cmp a b with
    | none => rw [hcmp] at h; exact absurd h (by simp)
    | some o =>
      rw [hcmp] at h
      cases o with
      | gt =>
        cases hrec : insertOpt cmp a bs with
        | none => rw [hrec] at h; exact absurd h (by simp)
        | some m =>
          rw [hrec] at h
          have h2 : b :: m = l' := by simpa using h
          subst h2
          simp [ih m hrec]
      | lt =>
        simp only [Option.some_inj] at h
        subst h
        rfl
      | eq =>
        simp only [Option.some_inj] at h
        subst h
        rfl

theorem sortByOpt_mem (cmp : SearchResult → SearchResult → Option Ordering)
    (l l' : List SearchResult) (h : sortByOpt cmp l = some l') :
    ∀ x ∈ l', x ∈ l := by
  induction l generalizing l' with
  | nil =>
    rw [sortByOpt] at h
    simp only [Option.some_inj] at h
    subst h
    intro x hx
    exact absurd hx (List.not_mem_nil _)
  | cons a as ih =>
    rw [sortByOpt] at h
    cases hrec : sortByOpt cmp as with
    | none => rw [hrec] at h; exact absurd h (by simp)
    | some m =>
      rw [hrec] at h
      rw [Option.some_bind] at h
      intro x hx
      rcases insertOpt_mem cmp a m l' h x hx with rfl | hx'
      · exact List.mem_cons_self _ _
      · exact List.mem_cons_of_mem _ (ih m hrec x hx')

theorem sortByOpt_isSome (cmp : SearchResult → SearchResult → Option Ordering)
    (l : List SearchResult)
    (h : ∀ a ∈ l, ∀ b ∈ l, (cmp a b).isSome = true) :
    (sortByOpt cmp l).isSome = true := by
  induction l with
  | nil => rfl
  | cons a as ih =>
    rw [sortByOpt]
    have hrec := ih (fun x hx y hy =>
      h x (List.mem_cons_of_mem a hx) y (List.mem_cons_of_mem a hy))
    obtain ⟨m, hm⟩ := Option.isSome_iff_exists.mp hrec
    rw [hm, Option.some_bind]
    apply insertOpt_isSome
    intro b hb
    exact h a (List.mem_cons_self a as) b
      (List.mem_cons_of_mem a (sortByOpt_mem cmp as m hm b hb))

theorem sortByOpt_length (cmp : SearchResult → SearchResult → Option Ordering)
    (l l' : List SearchResult) (h : sortByOpt cmp l = some l') :
    l'.length = l.length := by
  induction l generalizing l' with
  | nil =>
    rw [sortByOpt] at h
    simp only [Option.some_inj] at h
    subst h
    rfl
  | cons a as ih =>
    rw [sortByOpt] at h
    cases hrec : sortByOpt cmp as with
    | none => rw [hrec] at h; exact absurd h (by simp)
    | some m =>
      rw [hrec] at h
      simp only [Option.some_bind] at h
      rw [insertOpt_length cmp a m l' h, ih m hrec]
      rfl

theorem sort_results_isSome (results : List SearchResult) (kind : SearchKind)
    (hscore : ∀ r ∈ results, r.score = F32.val 1) :
    (sort_results results kind).isSome = true := by
  cases kind with
  | Fuzzy =>
    apply sortByOpt_isSome
    intro a ha b hb
    rw [hscore a ha, hscore b hb]
    rfl
  | Exact => exact sortByOpt_isSome _ _ (fun a _ b _ => rfl)
  | Regex => exact sortByOpt_isSome _ _ (fun a _ b _ => rfl)

theorem search_isSome (index : List Doc) (cache : Cache) (query : SearchQuery) :
    (search index cache query).isSome = true := by
  rw [search]
  cases hc : cacheLookup cache (cache_key query) with
  | some cached => rfl
  | none =>
    simp only
    have hscore : ∀ r ∈ apply_filters (IndexManager.search index query) query.filters,
        r.score = F32.val 1 := by
      intro r hr
      exact IndexManager.mem_search_score index query r
        (mem_of_mem_apply_filters _ _ r hr)
    have := sort_results_isSome _ query.kind hscore
    obtain ⟨res, hres⟩ := Option.isSome_iff_exists.mp this
    rw [hres]
    rfl

theorem search_miss (index : List Doc) (cache : Cache) (query : SearchQuery)
    (res : List SearchResult) (c' : Cache)
    (hmiss : cacheLookup cache (cache_key query) = none)
    (h : search index cache query = some (res, c')) :
    c' = cacheInsert cache (cache_key query) res ∧
    res.length = (apply_filters (IndexManager.search index query) query.filters).length := by
  rw [search, hmiss] at h
  simp only at h
  cases hs : sort_results (apply_filters (IndexManager.search index query) query.filters)
      query.kind with
  | none => rw [hs] at h; exact absurd h (by simp)
  | some sorted =>
    rw [hs] at h
    simp only [Option.some_inj, Prod.mk.injEq] at h
    obtain ⟨rfl, rfl⟩ := h
    refine ⟨rfl, ?_⟩
    cases hk : query.kind <;>
      (rw [hk] at hs; simp only [sort_results] at hs; exact sortByOpt_length _ _ _ hs)

end QueryEngine

theorem cacheLookup_map_ne (cache : Cache) (k : String) (v : List SearchResult)
    (k2 : String) (hne : ¬ k = k2) :
    cacheLookup (cache.map (fun p => if p.1 = k then (k, v) else p)) k2 =
      cacheLookup cache k2 := by
  induction cache with
  | nil => rfl
  | cons p ps ih =>
    by_cases hp : p.1 = k
    · rw [List.map_cons, if_pos hp]
      simp only [cacheLookup]
      rw [if_neg hne, if_neg (fun h => hne (hp.symm.trans h))]
      exact ih
    · rw [List.map_cons, if_neg hp]
      simp only [cacheLookup]
      by_cases hp2 : p.1 = k2
      · rw [if_pos hp2, if_pos hp2]
      · rw [if_neg hp2, if_neg hp2]
        exact ih

theorem cacheLookup_append_single_ne (cache : Cache) (k : String) (v : List SearchResult)
    (k2 : String) (hne : ¬ k = k2) :
    cacheLookup (cache ++ [(k, v)]) k2 = cacheLookup cache k2 := by
  induction cache with
  | nil =>
    rw [List.nil_append]
    simp only [cacheLookup]
    rw [if_neg hne]
  | cons p ps ih =>
    rw [List.cons_append]
    simp only [cacheLookup]
    by_cases hp2 : p.1 = k2
    · rw [if_pos hp2, if_pos hp2]
    · rw [if_neg hp2, if_neg hp2]
      exact ih

theorem cacheLookup_insert_ne (cache : Cache) (k : String) (v : List SearchResult)
    (k2 : String) (hne : ¬ k = k2) :
    cacheLookup (cacheInsert cache k v) k2 = cacheLookup cache k2 := by
  unfold cacheInsert
  split
  · exact cacheLookup_map_ne cache k v k2 hne
  · exact cacheLookup_append_single_ne cache k v k2 hne

theorem length_filter_map {α β : Type} (f : α → β) (p : β → Bool) (l : List α) :
    ((l.map f).filter p).length = (l.filter (fun x => p (f x))).length := by
  induction l with
  | nil => rfl
  | cons a as ih =>
    simp only [List.map_cons, List.filter_cons]
    by_cases h : p (f a) = true
    · simp [h, ih]
    · simp only [eq_false_of_ne_true h]
      simpa using ih

namespace QueryEngine

theorem search_by_kind_count (index : List Doc) (cache : Cache) (k : DeclarationKind)
    (lim : Option Nat) (res : List SearchResult) (c' : Cache)
    (hmiss : cacheLookup cache
      (cache_key { query := debugDeclKind k, kind := .Exact,
                   filters := [.Kind k], limit := lim }) = none)
    (h : search_by_kind index cache k lim = some (res, c')) :
    res.length ≤ lim.getD 100 ∧ res.length ≤ countKind index k ∧
      c' = cacheInsert cache
        (cache_key { query := debugDeclKind k, kind := .Exact,
                     filters := [.Kind k], limit := lim }) res := by
  rw [search_by_kind] at h
  set q : SearchQuery :=
    { query := debugDeclKind k, kind := .Exact, filters := [.Kind k], limit := lim } with hq
  obtain ⟨hc, hlen⟩ := search_miss index cache q res c' hmiss h
  have happ : apply_filters (IndexManager.search index q) q.filters
      = (IndexManager.search index q).filter (filter_pred (.Kind k)) := rfl
  rw [happ] at hlen
  have hsearch : IndexManager.search index q =
      ((index.filter (IndexManager.build_query_matches q)).take (lim.getD 100)).map
        IndexManager.document_to_result := rfl
  refine ⟨?_, ?_, hc⟩
  · rw [hlen, hsearch]
    have h1 : ((((index.filter (IndexManager.build_query_matches q)).take
          (lim.getD 100)).map IndexManager.document_to_result).filter
            (filter_pred (.Kind k))).length
        ≤ (((index.filter (IndexManager.build_query_matches q)).take (lim.getD 100)).map
          IndexManager.document_to_result).length := List.length_filter_le _ _
    have h2 : ((((index.filter (IndexManager.build_query_matches q)).take
          (lim.getD 100))).map IndexManager.document_to_result).length
        = ((index.filter (IndexManager.build_query_matches q)).take (lim.getD 100)).length :=
      List.length_map _ _
    have h3 : ((index.filter (IndexManager.build_query_matches q)).take
        (lim.getD 100)).length ≤ lim.getD 100 := List.length_take_le _ _
    omega
  · rw [hlen, hsearch, length_filter_map]
    have hpred : (fun d => filter_pred (.Kind k) (IndexManager.document_to_result d))
        = (fun d => IndexManager.parseDeclKind d.kind == k) := rfl
    rw [hpred]
    have hsub : List.Sublist
        (((index.filter (IndexManager.build_query_matches q)).take
          (lim.getD 100)).filter (fun d => IndexManager.parseDeclKind d.kind == k))
        (index.filter (fun d => IndexManager.parseDeclKind d.kind == k)) := by
      apply List.Sublist.filter
      exact (List.take_sublist _ _).trans index.filter_sublist
    exact hsub.length_le

end QueryEngine

/-- A sibling node that `extract_documentation` accepts: a comment
(line or block) whose text begins with the doc marker. -/
def is_javadoc_sibling (p : TSNode) : Bool :=
  (p.kind == "line_comment" || p.kind == "block_comment") && startsWithStr p.text "/**"

/-- A child node that `get_documentation` accepts: a `comment` node
whose text begins with the doc marker. -/
def is_javadoc_child (c : TSNode) : Bool :=
  (JavaNodeKind.fromStr c.kind == .Comment) && startsWithStr c.text "/**"

namespace JavaParser

theorem inheritance_step_fst_of_ne (acc : Option String × List String) (c : TSNode)
    (h : JavaNodeKind.fromStr c.kind ≠ .Superclass) :
    (inheritance_step acc c).1 = acc.1 := by
  unfold inheritance_step
  cases hk : JavaNodeKind.fromStr c.kind <;>
    first
      | exact absurd hk h
      | rfl

theorem inheritance_step_snd_of_ne (acc : Option String × List String) (c : TSNode)
    (h : JavaNodeKind.fromStr c.kind ≠ .SuperInterfaces) :
    (inheritance_step acc c).2 = acc.2 := by
  unfold inheritance_step
  cases hk : JavaNodeKind.fromStr c.kind <;>
    first
      | exact absurd hk h
      | (cases childByFieldName c "type" <;> rfl)

theorem inheritance_loop_fst_none_iff (cs : List TSNode)
    (acc : Option String × List String)
    (hwf : ∀ c ∈ cs, JavaNodeKind.fromStr c.kind = .Superclass →
      (childByFieldName c "type").isSome = true) :
    ((inheritance_loop cs acc).1 = none ↔
      (acc.1 = none ∧ ∀ c ∈ cs, JavaNodeKind.fromStr c.kind ≠ .Superclass)) := by
  induction cs generalizing acc with
  | nil =>
    rw [inheritance_loop]
    simp
  | cons c cs' ih =>
    rw [inheritance_loop]
    by_cases hk : JavaNodeKind.fromStr c.kind = .Superclass
    · obtain ⟨t, ht⟩ := Option.isSome_iff_exists.mp (hwf c (List.mem_cons_self c cs') hk)
      have hstep : inheritance_step acc c = (some t.text, acc.2) := by
        unfold inheritance_step
        rw [hk, ht]
      rw [hstep,
        ih (some t.text, acc.2) (fun x hx => hwf x (List.mem_cons_of_mem c hx))]
      constructor
      · rintro ⟨h1, -⟩
        exact absurd h1 (by simp)
      · rintro ⟨-, h2⟩
        exact absurd hk (h2 c (List.mem_cons_self c cs'))
    · have hstep1 : (inheritance_step acc c).1 = acc.1 := inheritance_step_fst_of_ne acc c hk
      rw [ih (inheritance_step acc c) (fun x hx => hwf x (List.mem_cons_of_mem c hx)), hstep1]
      constructor
      · rintro ⟨h1, h2⟩
        refine ⟨h1, ?_⟩
        intro x hx
        rcases List.mem_cons.mp hx with rfl | hx'
        · exact hk
        · exact h2 x hx'
      · rintro ⟨h1, h2⟩
        exact ⟨h1, fun x hx => h2 x (List.mem_cons_of_mem c hx)⟩

theorem inheritance_loop_snd_of_none (cs : List TSNode) (acc : Option String × List String)
    (h : ∀ c ∈ cs, JavaNodeKind.fromStr c.kind ≠ .SuperInterfaces) :
    (inheritance_loop cs acc).2 = acc.2 := by
  induction cs generalizing acc with
  | nil => rfl
  | cons c cs' ih =>
    rw [inheritance_loop,
      ih (inheritance_step acc c) (fun x hx => h x (List.mem_cons_of_mem c hx)),
      inheritance_step_snd_of_ne acc c (h c (List.mem_cons_self c cs'))]

theorem get_documentation_loop_eq_find (l : List TSNode) :
    get_documentation_loop l = (l.find? is_javadoc_child).map TSNode.text := by
  induction l with
  | nil => rfl
  | cons c cs ih =>
    rw [get_documentation_loop]
    by_cases h1 : (JavaNodeKind.fromStr c.kind == JavaNodeKind.Comment) = true
    · rw [if_pos h1]
      by_cases h2 : startsWithStr c.text "/**" = true
      · rw [if_pos h2]
        have hp : is_javadoc_child c = true := by
          rw [is_javadoc_child, h1, h2]
          rfl
        rw [List.find?_cons, hp]
        rfl
      · rw [if_neg h2]
        have hp : is_javadoc_child c = false := by
          rw [is_javadoc_child, h1, eq_false_of_ne_true h2]
          rfl
        rw [List.find?_cons, hp]
        exact ih
    · rw [if_neg h1]
      have hp : is_javadoc_child c = false := by
        rw [is_javadoc_child, eq_false_of_ne_true h1]
        rfl
      rw [List.find?_cons, hp]
      exact ih

end JavaParser

namespace JavaStructureParser

theorem doc_sibling_scan_eq_find (l : List TSNode) :
    doc_sibling_scan l = (l.find? is_javadoc_sibling).map TSNode.text := by
  induction l with
  | nil => rfl
  | cons p ps ih =>
    rw [doc_sibling_scan]
    by_cases hc : (p.kind = "line_comment" ∨ p.kind = "block_comment") ∧
        startsWithStr p.text "/**" = true
    · rw [if_pos hc]
      have hp : is_javadoc_sibling p = true := by
        rw [is_javadoc_sibling]
        obtain ⟨hor, hs⟩ := hc
        have h1 : (p.kind == "line_comment" || p.kind == "block_comment") = true := by
          rcases hor with h | h <;> simp [h]
        rw [h1, hs]
        rfl
      rw [List.find?_cons, hp]
      rfl
    · rw [if_neg hc]
      have hp : is_javadoc_sibling p = false := by
        rw [is_javadoc_sibling]
        by_contra hne
        apply hc
        have := Bool.and_eq_true _ _ |>.mp (Bool.of_not_eq_false hne)
        refine ⟨?_, this.2⟩
        rcases Bool.or_eq_true _ _ |>.mp this.1 with h | h
        · exact Or.inl (beq_iff_eq.mp h)
        · exact Or.inr (beq_iff_eq.mp h)
      rw [List.find?_cons, hp]
      exact ih

end JavaStructureParser

/-! ## Concrete inputs used by witnesses and counterexamples -/

/-- A `class_declaration` grammar node for `public class Foo {}`. -/
def exClassNode : TSNode :=
  .mk "class_declaration" "public class Foo {}" [(none, .mk "identifier" "Foo" [])]

/-- The declaration extracted from `package com.example; public class Foo {}`. -/
def exDeclFoo : Declaration :=
  { name := "Foo", kind := .Class, modifiers := ["public"], annotations := [],
    signature := "public class com.example.Foo", extendsClause := none, implements := [],
    fields := [], methods := [], range := ⟨1, 1, 3, 1⟩, documentation := none }

def exJfFoo : JavaFile :=
  { path := "Foo.java", module := none, package := "com.example", imports := [],
    declarations := [exDeclFoo], source_hash := "hfoo" }

/-- A cached search result whose declaration is a class. -/
def exResultClass : SearchResult :=
  { declaration := exDeclFoo, file_path := "Foo.java", score := F32.val 1,
    preview := "Foo: public class com.example.Foo" }

def exHitCache : Cache := [("Exact:q", [exResultClass])]

/-- A query whose `(kind, query)` key is cached but whose filter list
asks for interfaces only. -/
def exHitQuery : SearchQuery :=
  { query := "q", kind := .Exact, filters := [.Kind .Interface], limit := none }

/-- A declaration carrying the `@Service` annotation. -/
def exDeclService : Declaration :=
  { name := "Svc", kind := .Class, modifiers := ["public"],
    annotations := [{ name := "Service", values := [] }],
    signature := "public class Svc", extendsClause := none, implements := [],
    fields := [], methods := [], range := ⟨1, 1, 2, 1⟩, documentation := none }

def exJfService : JavaFile :=
  { path := "Svc.java", module := none, package := "", imports := [],
    declarations := [exDeclService], source_hash := "hsvc" }

def exAnnQuery : SearchQuery :=
  { query := "Svc", kind := .Exact, filters := [.AnnotationFilter "Service"], limit := none }

/-- An annotation-type declaration, as the extractor produces it for
`@interface Foo` in the default package. -/
def exDeclAnno : Declaration :=
  { name := "Foo", kind := .AnnotationKind, modifiers := [], annotations := [],
    signature := "@interface Foo", extendsClause := none, implements := [],
    fields := [], methods := [], range := ⟨1, 1, 2, 1⟩, documentation := none }

def exJfAnno : JavaFile :=
  { path := "A.java", module := none, package := "", imports := [],
    declarations := [exDeclAnno], source_hash := "h1" }

def exAnnoIndex : List Doc := IndexManager.index_java_file [] exJfAnno

/-- A class declaration whose name is upper-case. -/
def exDeclUpper : Declaration :=
  { name := "ABC", kind := .Class, modifiers := [], annotations := [],
    signature := "class ABC", extendsClause := none, implements := [],
    fields := [], methods := [], range := ⟨1, 1, 2, 1⟩, documentation := none }

def exJfUpper : JavaFile :=
  { path := "B.java", module := none, package := "", imports := [],
    declarations := [exDeclUpper], source_hash := "h2" }

/-- A class declaration whose name is already lower-case. -/
def exDeclLower : Declaration :=
  { name := "foo", kind := .Class, modifiers := [], annotations := [],
    signature := "class foo", extendsClause := none, implements := [],
    fields := [], methods := [], range := ⟨1, 1, 2, 1⟩, documentation := none }

def exJfLower : JavaFile :=
  { path := "f.java", module := none, package := "", imports := [],
    declarations := [exDeclLower], source_hash := "h3" }

/-- A source unit with no declarations (e.g. an empty file). -/
def exJfEmpty : JavaFile :=
  { path := "Empty.java", module := none, package := "", imports := [],
    declarations := [], source_hash := "he" }

/-- A class node with a superclass clause (with `type` field) and an
interfaces clause. -/
def exInhNode : TSNode :=
  .mk "class_declaration" "class A extends B implements C {}"
    [(none, .mk "identifier" "A" []),
     (none, .mk "superclass" "extends B" [(some "type", .mk "type_identifier" "B" [])]),
     (none, .mk "super_interfaces" "implements C" [(none, .mk "type_identifier" "C" [])])]

def exSupNode : TSNode := .mk "superclass" "extends Base" []

/-- A class node with grammar fields `superclass` and `interfaces`. -/
def exSNode : TSNode :=
  .mk "class_declaration" "class A extends Base implements C {}"
    [(some "superclass", exSupNode),
     (some "interfaces",
      .mk "super_interfaces" "implements C" [(none, .mk "type_identifier" "C" [])])]

def exDocComment : TSNode := .mk "block_comment" "/** Doc A. */" []

def exClassEmptyA : TSNode := .mk "class_declaration" "class A {}" []

def exClassEmptyB : TSNode := .mk "class_declaration" "class B {}" []

/-! ## Claim theorems -/

/-- C1: for every declaration node whose grammar kind maps to a
declaration kind `K`, the generated signature is the scanned modifier
list (source order), then the fixed kind keyword (`Class`→`"class"`,
`Interface`→`"interface"`, `Enum`→`"enum"`, `Record`→`"record"`,
`Annotation`→`"@interface"`), then `"P.X"` when the package `P` is
non-empty and just `"X"` (no dot) when `P` is empty — all space-joined;
and `build_fqn` of the structure parser behaves the same on its
optional package. -/
theorem claim_C1 (node : TSNode) (P : String) (K : DeclarationKind)
    (hK : (JavaNodeKind.fromStr node.kind).to_declaration_kind = some K) :
    JavaParser.get_signature node P =
      joinSpace (JavaParser.get_modifiers node ++ [JavaParser.kindKeyword K] ++
        [if P = "" then JavaParser.get_declaration_name node
         else P ++ "." ++ JavaParser.get_declaration_name node]) ∧
    (∀ name : String,
      JavaStructureParser.build_fqn (some P) name = P ++ "." ++ name ∧
      JavaStructureParser.build_fqn none name = name) := by
  constructor
  · have hmods : (if JavaParser.get_modifiers node ≠ [] then JavaParser.get_modifiers node
        else []) = JavaParser.get_modifiers node := by
      by_cases h : JavaParser.get_modifiers node = []
      · rw [if_neg (not_not_intro h), h]
      · rw [if_pos h]
    simp only [JavaParser.get_signature, hK]
    rw [hmods, List.append_assoc]
  · intro name
    exact ⟨rfl, rfl⟩

/-- C1 witness: the theorem applied to a concrete `public class Foo`
node in package `com.example`. -/
theorem claim_C1_witness :
    JavaParser.get_signature exClassNode "com.example" = "public class com.example.Foo" := by
  have h := (claim_C1 exClassNode "com.example" DeclarationKind.Class rfl).1
  rw [h]
  rfl

/-- C2: indexing a source unit into an empty index and searching its
declaration's name in Exact mode (any filters, any limit that is at
least the number of the unit's declarations, e.g. the default) returns
at least one result whose reconstructed declaration carries that name.
The name hypotheses keep it a single analyzer token (a plain
alphanumeric identifier). -/
theorem claim_C2 (jf : JavaFile) (d : Declaration) (N : String)
    (fs : List SearchFilter) (lim : Option Nat)
    (hmem : d ∈ jf.declarations) (hname : d.name = N) (hne : N ≠ "")
    (halnum : ∀ c ∈ N.toList, c.isAlphanum = true)
    (hlim : jf.declarations.length ≤ lim.getD 100) :
    ∃ r ∈ IndexManager.search (IndexManager.index_java_file [] jf)
        { query := N, kind := .Exact, filters := fs, limit := lim },
      r.declaration.name = N := by
  subst hname
  have hidx : IndexManager.index_java_file [] jf
      = jf.declarations.map (fun x => IndexManager.create_document x jf) := by
    unfold IndexManager.index_java_file
    rw [List.nil_append]
  have hD : IndexManager.create_document d jf ∈ IndexManager.index_java_file [] jf := by
    rw [hidx]
    exact List.mem_map_of_mem _ hmem
  have htok : tokenize d.name = [lowerStr d.name] :=
    tokenize_all_alphanum _ (toList_ne_nil_of_ne_empty _ hne) halnum
  have hmatch : IndexManager.build_query_matches
      { query := d.name, kind := .Exact, filters := fs, limit := lim }
      (IndexManager.create_document d jf) = true := by
    show (tokenize d.name).any _ = true
    rw [List.any_eq_true]
    refine ⟨lowerStr d.name, by rw [htok]; exact List.mem_singleton_self _, ?_⟩
    have hmem2 : lowerStr d.name ∈ tokenize (IndexManager.create_document d jf).name := by
      show lowerStr d.name ∈ tokenize d.name
      rw [htok]
      exact List.mem_singleton_self _
    simp [hmem2]
  have hlen2 : (IndexManager.index_java_file [] jf).length ≤ lim.getD 100 := by
    rw [hidx, List.length_map]
    exact hlim
  exact ⟨IndexManager.document_to_result (IndexManager.create_document d jf),
    IndexManager.mem_search _ _ _ hD hmatch hlen2, rfl⟩

/-- C2 witness: round trip on a unit declaring `Foo`. -/
theorem claim_C2_witness :
    ∃ r ∈ IndexManager.search (IndexManager.index_java_file [] exJfFoo)
        { query := "Foo", kind := .Exact, filters := [], limit := some 10 },
      r.declaration.name = "Foo" :=
  claim_C2 exJfFoo exDeclFoo "Foo" [] (some 10) (by decide) rfl (by decide)
    (by decide) (by decide)

/-- C3 counterexample: with `(Exact, "q")` cached, a call whose filter
list is `[Kind Interface]` returns the cached class result unchanged —
the current call's filters are not applied to the cached set, contrary
to the claim. -/
theorem claim_C3_counterexample :
    QueryEngine.search [] exHitCache exHitQuery = some ([exResultClass], exHitCache) ∧
    QueryEngine.apply_filters [exResultClass] exHitQuery.filters = [] := by
  constructor
  · rfl
  · rfl

/-- C3 amended: on a cache hit, `search` returns the cached clone as
is, with the cache unchanged; the current call's filters (and limit)
are ignored — filters are applied only on the miss path, before the
result set is cached. -/
theorem claim_C3_amended (index : List Doc) (cache : Cache) (q : SearchQuery)
    (cached : List SearchResult)
    (hhit : cacheLookup cache (QueryEngine.cache_key q) = some cached) :
    QueryEngine.search index cache q = some (cached, cache) := by
  rw [QueryEngine.search, hhit]

/-- C3 witness: the amended theorem applied to the concrete cached
entry. -/
theorem claim_C3_witness :
    QueryEngine.search [] exHitCache exHitQuery = some ([exResultClass], exHitCache) :=
  claim_C3_amended [] exHitCache exHitQuery [exResultClass] rfl

/-- C4: every declaration reconstructed from a stored document has an
empty annotation list, so a non-cached Query Engine search whose filter
list contains an Annotation filter returns the empty result list (and
caches it). -/
theorem claim_C4 (index : List Doc) (cache : Cache) (q : SearchQuery) (a : String)
    (hmiss : cacheLookup cache (QueryEngine.cache_key q) = none)
    (hf : SearchFilter.AnnotationFilter a ∈ q.filters) :
    (∀ d : Doc, (IndexManager.create_declaration_from_doc d).annotations = []) ∧
    QueryEngine.search index cache q =
      some ([], cacheInsert cache (QueryEngine.cache_key q) []) := by
  refine ⟨fun d => rfl, ?_⟩
  rw [QueryEngine.search, hmiss]
  have happ : QueryEngine.apply_filters (IndexManager.search index q) q.filters = [] :=
    QueryEngine.apply_filters_annotation_empty _ _ a
      (fun r hr => IndexManager.mem_search_annotations _ _ r hr) hf
  rw [happ]
  have hsort : QueryEngine.sort_results [] q.kind = some [] := by
    cases hk : q.kind <;> rfl
  rw [hsort]

/-- C5 counterexample: an index holding exactly one annotation-type
document (`@interface Foo`).  `get_statistics` (fresh cache) reports
`annotation_count = 0` although the index holds one document of kind
`Annotation`: the per-kind count comes from an Exact text query for the
string `"Annotation"` over name/signature/documentation, which this
document does not contain, so the count does not equal the number of
indexed documents of that kind. -/
theorem claim_C5_counterexample :
    (QueryEngine.get_statistics exAnnoIndex []).map (fun p => p.1.annotation_count) =
      some 0 ∧
    countKind exAnnoIndex DeclarationKind.AnnotationKind = 1 ∧
    (QueryEngine.get_statistics exAnnoIndex []).map (fun p => p.1.total_declarations) =
      some 1 := by
  refine ⟨?_, ?_, ?_⟩ <;> rfl

/-- C5 amended: `get_statistics` does issue one `search_by_kind` call
per kind with `limit = None`, but the Index Manager replaces a missing
limit by its default of 100, and the per-kind figure counts the
documents that both match the Exact text query for the kind's debug
name and reconstruct to that kind; hence each per-kind count is at most
100 and at most the number of indexed documents of that kind (either
inequality can be strict), rather than being equal to the total. -/
theorem claim_C5_amended (index : List Doc) (stats : QueryEngine.QueryStatistics)
    (c' : Cache) (h : QueryEngine.get_statistics index [] = some (stats, c')) :
    stats.total_declarations = index.length ∧
    (stats.class_count ≤ 100 ∧ stats.class_count ≤ countKind index .Class) ∧
    (stats.interface_count ≤ 100 ∧
      stats.interface_count ≤ countKind index .Interface) ∧
    (stats.enum_count ≤ 100 ∧ stats.enum_count ≤ countKind index .Enum) ∧
    (stats.record_count ≤ 100 ∧ stats.record_count ≤ countKind index .Record) ∧
    (stats.annotation_count ≤ 100 ∧
      stats.annotation_count ≤ countKind index .AnnotationKind) := by
  obtain ⟨⟨r1, c1⟩, e1⟩ := Option.isSome_iff_exists.mp
    (show (QueryEngine.search_by_kind index [] DeclarationKind.Class none).isSome = true
      from QueryEngine.search_isSome _ _ _)
  obtain ⟨b1a, b1b, hc1⟩ :=
    QueryEngine.search_by_kind_count index [] DeclarationKind.Class none r1 c1 rfl e1
  have m2 : cacheLookup c1
      (QueryEngine.cache_key
        { query := debugDeclKind DeclarationKind.Interface, kind := .Exact,
          filters := [.Kind .Interface], limit := none }) = none := by
    rw [hc1, cacheLookup_insert_ne _ _ _ _ (by decide)]
    rfl
  obtain ⟨⟨r2, c2⟩, e2⟩ := Option.isSome_iff_exists.mp
    (show (QueryEngine.search_by_kind index c1 DeclarationKind.Interface none).isSome = true
      from QueryEngine.search_isSome _ _ _)
  obtain ⟨b2a, b2b, hc2⟩ :=
    QueryEngine.search_by_kind_count index c1 DeclarationKind.Interface none r2 c2 m2 e2
  have m3 : cacheLookup c2
      (QueryEngine.cache_key
        { query := debugDeclKind DeclarationKind.Enum, kind := .Exact,
          filters := [.Kind .Enum], limit := none }) = none := by
    rw [hc2, cacheLookup_insert_ne _ _ _ _ (by decide),
      hc1, cacheLookup_insert_ne _ _ _ _ (by decide)]
    rfl
  obtain ⟨⟨r3, c3⟩, e3⟩ := Option.isSome_iff_exists.mp
    (show (QueryEngine.search_by_kind index c2 DeclarationKind.Enum none).isSome = true
      from QueryEngine.search_isSome _ _ _)
  obtain ⟨b3a, b3b, hc3⟩ :=
    QueryEngine.search_by_kind_count index c2 DeclarationKind.Enum none r3 c3 m3 e3
  have m4 : cacheLookup c3
      (QueryEngine.cache_key
        { query := debugDeclKind DeclarationKind.Record, kind := .Exact,
          filters := [.Kind .Record], limit := none }) = none := by
    rw [hc3, cacheLookup_insert_ne _ _ _ _ (by decide),
      hc2, cacheLookup_insert_ne _ _ _ _ (by decide),
      hc1, cacheLookup_insert_ne _ _ _ _ (by decide)]
    rfl
  obtain ⟨⟨r4, c4⟩, e4⟩ := Option.isSome_iff_exists.mp
    (show (QueryEngine.search_by_kind index c3 DeclarationKind.Record none).isSome = true
      from QueryEngine.search_isSome _ _ _)
  obtain ⟨b4a, b4b, hc4⟩ :=
    QueryEngine.search_by_kind_count index c3 DeclarationKind.Record none r4 c4 m4 e4
  have m5 : cacheLookup c4
      (QueryEngine.cache_key
        { query := debugDeclKind DeclarationKind.AnnotationKind, kind := .Exact,
          filters := [.Kind .AnnotationKind], limit := none }) = none := by
    rw [hc4, cacheLookup_insert_ne _ _ _ _ (by decide),
      hc3, cacheLookup_insert_ne _ _ _ _ (by decide),
      hc2, cacheLookup_insert_ne _ _ _ _ (by decide),
      hc1, cacheLookup_insert_ne _ _ _ _ (by decide)]
    rfl
  obtain ⟨⟨r5, c5⟩, e5⟩ := Option.isSome_iff_exists.mp
    (show (QueryEngine.search_by_kind index c4 DeclarationKind.AnnotationKind none).isSome = true
      from QueryEngine.search_isSome _ _ _)
  obtain ⟨b5a, b5b, hc5⟩ :=
    QueryEngine.search_by_kind_count index c4 DeclarationKind.AnnotationKind none r5 c5 m5 e5
  rw [QueryEngine.get_statistics] at h
  rw [e1] at h
  simp only [Option.bind_eq_bind, Option.some_bind] at h
  rw [e2] at h
  simp only [Option.bind_eq_bind, Option.some_bind] at h
  rw [e3] at h
  simp only [Option.bind_eq_bind, Option.some_bind] at h
  rw [e4] at h
  simp only [Option.bind_eq_bind, Option.some_bind] at h
  rw [e5] at h
  simp only [Option.bind_eq_bind, Option.some_bind, Option.pure_def,
    Option.some_inj, Prod.mk.injEq] at h
  obtain ⟨hstats, -⟩ := h
  subst hstats
  exact ⟨rfl, ⟨b1a, b1b⟩, ⟨b2a, b2b⟩, ⟨b3a, b3b⟩, ⟨b4a, b4b⟩, ⟨b5a, b5b⟩⟩

/-- C5 amended witness: the amended theorem applied to the concrete
one-annotation index. -/
theorem claim_C5_amended_witness :
    (⟨1, 0, 0, 0, 0, 0⟩ : QueryEngine.QueryStatistics).total_declarations =
      exAnnoIndex.length ∧
    ((⟨1, 0, 0, 0, 0, 0⟩ : QueryEngine.QueryStatistics).class_count ≤ 100 ∧
      (⟨1, 0, 0, 0, 0, 0⟩ : QueryEngine.QueryStatistics).class_count ≤
        countKind exAnnoIndex .Class) ∧
    ((⟨1, 0, 0, 0, 0, 0⟩ : QueryEngine.QueryStatistics).interface_count ≤ 100 ∧
      (⟨1, 0, 0, 0, 0, 0⟩ : QueryEngine.QueryStatistics).interface_count ≤
        countKind exAnnoIndex .Interface) ∧
    ((⟨1, 0, 0, 0, 0, 0⟩ : QueryEngine.QueryStatistics).enum_count ≤ 100 ∧
      (⟨1, 0, 0, 0, 0, 0⟩ : QueryEngine.QueryStatistics).enum_count ≤
        countKind exAnnoIndex .Enum) ∧
    ((⟨1, 0, 0, 0, 0, 0⟩ : QueryEngine.QueryStatistics).record_count ≤ 100 ∧
      (⟨1, 0, 0, 0, 0, 0⟩ : QueryEngine.QueryStatistics).record_count ≤
        countKind exAnnoIndex .Record) ∧
    ((⟨1, 0, 0, 0, 0, 0⟩ : QueryEngine.QueryStatistics).annotation_count ≤ 100 ∧
      (⟨1, 0, 0, 0, 0, 0⟩ : QueryEngine.QueryStatistics).annotation_count ≤
        countKind exAnnoIndex .AnnotationKind) :=
  claim_C5_amended exAnnoIndex ⟨1, 0, 0, 0, 0, 0⟩
    [("Exact:Class", []), ("Exact:Interface", []), ("Exact:Enum", []),
     ("Exact:Record", []), ("Exact:Annotation", [])] (by decide)

/-- C4 witness: a unit whose declaration carries `@Service` is indexed;
searching with an `Annotation "Service"` filter (cache empty) returns
no results, because the stored document dropped the annotations. -/
theorem claim_C4_witness :
    QueryEngine.search (IndexManager.index_java_file [] exJfService) [] exAnnQuery =
      some ([], cacheInsert [] (QueryEngine.cache_key exAnnQuery) []) :=
  (claim_C4 (IndexManager.index_java_file [] exJfService) [] exAnnQuery "Service"
    rfl (by decide)).2

/-- C6: for well-formed grammar trees (every `superclass` child node
carries a `type` field, and a present `superclass` field has a
non-empty type text after stripping the keyword), `extends` is `None`
exactly when the declaration has no superclass clause, and the absence
of an interfaces clause yields an empty `implements` list — in both
extraction variants (`get_inheritance_info`, and
`extract_extends`/`extract_implements`). -/
theorem claim_C6 (node nodeS : TSNode)
    (hwf : ∀ c ∈ node.childNodes, JavaNodeKind.fromStr c.kind = .Superclass →
      (childByFieldName c "type").isSome = true)
    (hwfS : ∀ sc, childByFieldName nodeS "superclass" = some sc →
      trimStr (trimStartMatchesStr (trimStr sc.text) "extends") ≠ "") :
    ((JavaParser.get_inheritance_info node).1 = none ↔
      ∀ c ∈ node.childNodes, JavaNodeKind.fromStr c.kind ≠ .Superclass) ∧
    ((∀ c ∈ node.childNodes, JavaNodeKind.fromStr c.kind ≠ .SuperInterfaces) →
      (JavaParser.get_inheritance_info node).2 = []) ∧
    (JavaStructureParser.extract_extends nodeS = none ↔
      childByFieldName nodeS "superclass" = none) ∧
    (childByFieldName nodeS "interfaces" = none →
      JavaStructureParser.extract_implements nodeS = []) := by
  refine ⟨?_, ?_, ?_, ?_⟩
  · rw [JavaParser.get_inheritance_info,
      JavaParser.inheritance_loop_fst_none_iff _ _ hwf]
    simp
  · intro h
    rw [JavaParser.get_inheritance_info, JavaParser.inheritance_loop_snd_of_none _ _ h]
  · unfold JavaStructureParser.extract_extends
    cases hsc : childByFieldName nodeS "superclass" with
    | none => simp
    | some sc =>
      have hne := hwfS sc hsc
      simp [hne]
  · intro h
    unfold JavaStructureParser.extract_implements
    rw [h]

/-- C6 witness: the theorem applied to concrete class nodes that do
carry superclass and interfaces clauses, so both "exactly when"
directions are exercised. -/
theorem claim_C6_witness :
    ((JavaParser.get_inheritance_info exInhNode).1 = none ↔
      ∀ c ∈ exInhNode.childNodes, JavaNodeKind.fromStr c.kind ≠ .Superclass) ∧
    ((∀ c ∈ exInhNode.childNodes, JavaNodeKind.fromStr c.kind ≠ .SuperInterfaces) →
      (JavaParser.get_inheritance_info exInhNode).2 = []) ∧
    (JavaStructureParser.extract_extends exSNode = none ↔
      childByFieldName exSNode "superclass" = none) ∧
    (childByFieldName exSNode "interfaces" = none →
      JavaStructureParser.extract_implements exSNode = []) :=
  claim_C6 exInhNode exSNode (by decide)
    (by
      intro sc h
      rw [show childByFieldName exSNode "superclass" = some exSupNode from rfl] at h
      injection h with h2
      subst h2
      decide)

/-- C7 counterexample: the documentation walk associates a doc comment
with a declaration even though a non-comment sibling (a whole class
declaration) stands between them, contradicting the claim that such a
separated comment is not associated. -/
theorem claim_C7_counterexample :
    JavaStructureParser.extract_documentation
      [exDocComment, exClassEmptyA, exClassEmptyB] 2 = some "/** Doc A. */" ∧
    is_javadoc_sibling exClassEmptyA = false := by
  exact ⟨rfl, rfl⟩

/-- C7 amended: the documentation of a declaration (or field or
method) is the nearest preceding sibling comment whose text begins
with `/**`, where the walk scans past any intervening siblings —
comment or not — instead of stopping at the first non-comment; it is
`None` only when no preceding sibling at all is a `/**` comment.  (The
other parser snapshot's `get_documentation` scans the declaration's own
children, not its preceding siblings.) -/
theorem claim_C7_amended :
    (∀ l : List TSNode, JavaStructureParser.doc_sibling_scan l =
      (l.find? is_javadoc_sibling).map TSNode.text) ∧
    (∀ (siblings : List TSNode) (i : Nat),
      JavaStructureParser.extract_documentation siblings i =
        (((siblings.take i).reverse).find? is_javadoc_sibling).map TSNode.text) ∧
    (∀ n : TSNode, JavaParser.get_documentation n =
      (n.childNodes.find? is_javadoc_child).map TSNode.text) :=
  ⟨JavaStructureParser.doc_sibling_scan_eq_find,
   fun _ _ => JavaStructureParser.doc_sibling_scan_eq_find _,
   fun n => JavaParser.get_documentation_loop_eq_find n.childNodes⟩

/-- C8 counterexample: the declaration `ABC` is indexed (its name is
stored as the lowercased token `abc`), and the fuzzy query `ABC` — at
edit distance 0 from the declaration's name — returns nothing, because
the raw query term is compared against the lowercased token and
`osa("ABC", "abc") = 3 > 2`. -/
theorem claim_C8_counterexample :
    osaStr "ABC" "ABC" = 0 ∧
    IndexManager.search (IndexManager.index_java_file [] exJfUpper)
      { query := "ABC", kind := .Fuzzy, filters := [], limit := none } = [] := by
  exact ⟨rfl, rfl⟩

/-- C8 amended: fuzzy mode builds `FuzzyTermQuery(term, 2,
transposition := true)` against the name field from the raw query
string; since the indexed name terms are lowercased tokens, a fuzzy
query within edit distance 2 of the lowercased tokenization of an
indexed declaration's name (not of the raw name) returns that
document, given a limit at least the number of the unit's
declarations. -/
theorem claim_C8_amended (jf : JavaFile) (d : Declaration) (Q : String)
    (fs : List SearchFilter) (lim : Option Nat)
    (hmem : d ∈ jf.declarations) (hne : d.name ≠ "")
    (halnum : ∀ c ∈ d.name.toList, c.isAlphanum = true)
    (hdist : osaStr Q (lowerStr d.name) ≤ 2)
    (hlim : jf.declarations.length ≤ lim.getD 100) :
    ∃ r ∈ IndexManager.search (IndexManager.index_java_file [] jf)
        { query := Q, kind := .Fuzzy, filters := fs, limit := lim },
      r.declaration.name = d.name := by
  have hidx : IndexManager.index_java_file [] jf
      = jf.declarations.map (fun x => IndexManager.create_document x jf) := by
    unfold IndexManager.index_java_file
    rw [List.nil_append]
  have hD : IndexManager.create_document d jf ∈ IndexManager.index_java_file [] jf := by
    rw [hidx]
    exact List.mem_map_of_mem _ hmem
  have htok : tokenize d.name = [lowerStr d.name] :=
    tokenize_all_alphanum _ (toList_ne_nil_of_ne_empty _ hne) halnum
  have hmatch : IndexManager.build_query_matches
      { query := Q, kind := .Fuzzy, filters := fs, limit := lim }
      (IndexManager.create_document d jf) = true := by
    show (tokenize d.name).any _ = true
    rw [List.any_eq_true]
    refine ⟨lowerStr d.name, by rw [htok]; exact List.mem_singleton_self _, ?_⟩
    simpa using hdist
  have hlen2 : (IndexManager.index_java_file [] jf).length ≤ lim.getD 100 := by
    rw [hidx, List.length_map]
    exact hlim
  exact ⟨IndexManager.document_to_result (IndexManager.create_document d jf),
    IndexManager.mem_search _ _ _ hD hmatch hlen2, rfl⟩

/-- C8 amended witness: the query `fob` (distance 1 from the indexed
token `foo`) retrieves the declaration named `foo`. -/
theorem claim_C8_amended_witness :
    ∃ r ∈ IndexManager.search (IndexManager.index_java_file [] exJfLower)
        { query := "fob", kind := .Fuzzy, filters := [], limit := some 10 },
      r.declaration.name = "foo" :=
  claim_C8_amended exJfLower exDeclLower "fob" [] (some 10) (by decide) (by decide)
    (by decide) (by decide) (by decide)

/-- C9 counterexample: for a source unit with no declarations (an
empty file — an admissible boundary case), indexing it a second time
leaves the document count unchanged, so the count does not strictly
increase. -/
theorem claim_C9_counterexample :
    ¬ ((IndexManager.index_java_file [] exJfEmpty).length <
      (IndexManager.index_java_file (IndexManager.index_java_file [] exJfEmpty)
        exJfEmpty).length) := by
  decide

/-- C9 amended: indexing is additive-only — indexing the same unit
twice with no intervening `delete_by_hash` adds its declarations twice
(final count = initial + 2·#declarations, no content-hash upsert), and
the count strictly increases on each pass whenever the unit has at
least one declaration. -/
theorem claim_C9_amended (index : List Doc) (jf : JavaFile) :
    (IndexManager.index_java_file (IndexManager.index_java_file index jf) jf).length =
      index.length + 2 * jf.declarations.length ∧
    (jf.declarations ≠ [] →
      index.length < (IndexManager.index_java_file index jf).length) := by
  constructor
  · unfold IndexManager.index_java_file
    rw [List.length_append, List.length_append, List.length_map]
    omega
  · intro h
    unfold IndexManager.index_java_file
    rw [List.length_append, List.length_map]
    have := List.length_pos.mpr h
    omega

/-- C9 amended witness: indexing the one-declaration unit into an empty
index strictly increases the count. -/
theorem claim_C9_witness :
    ([] : List Doc).length < (IndexManager.index_java_file [] exJfAnno).length :=
  (claim_C9_amended [] exJfAnno).2 (by decide)

/-- C10: every search result built from a stored document carries the
constant score `1.0` (never NaN), so the Query Engine's fuzzy sort,
which unwraps `partial_cmp` of two scores, never hits the `None`
branch: `search` always returns a value (the `none` outcome modelling
the panic is unreachable), on the cache-hit path and on the index-backed
path alike. -/
theorem claim_C10 :
    (∀ d : Doc, (IndexManager.document_to_result d).score = F32.val 1) ∧
    (∀ (index : List Doc) (cache : Cache) (q : SearchQuery),
      (QueryEngine.search index cache q).isSome = true) :=
  ⟨fun _ => rfl, fun index cache q => QueryEngine.search_isSome index cache q⟩

end CodeInsight
